import Mathlib

/-!
Verification of chgnet/utils/vasp_utils.py.

The file shallowly embeds the two functions of the module:
the OUTCAR text-log scanner plus dataset assembly inside
parse_vasp_dir, and the oxidation-state solver solve_charge_by_mag.
Numeric text tokens are kept as strings (the source converts them with
float(); no claim depends on the numeric values of table entries), and
physical quantities that the source passes through unchanged are type
parameters.  Energies and magnetic moments are modelled as rationals.
-/

namespace VaspUtils

/-! ## Character classes used by the regexes of the scanner -/

/-- Python regex whitespace class, as in re \s. -/
def isWsC (c : Char) : Bool :=
  c = ' ' ∨ c = '\t' ∨ c = '\n' ∨ c = '\r' ∨ c = '\x0b' ∨ c = '\x0c'

/-- ASCII digit, as in re \d on these files. -/
def isDigitC (c : Char) : Bool := '0' ≤ c ∧ c ≤ '9'

/-- Character class of the numeric-token regex, digits, dot and minus. -/
def isNumTokC (c : Char) : Bool := isDigitC c ∨ c = '.' ∨ c = '-'

/-- Test whether p is a prefix of s, as in str.startswith. -/
def strHasPre : List Char → List Char → Bool
  | [], _ => true
  | _ :: _, [] => false
  | a :: ps, b :: ss => a = b && strHasPre ps ss

/-- Test whether p occurs as a contiguous substring of s, as in
the Python operator in on strings and re.search of a literal pattern. -/
def hasSub (p : List Char) : List Char → Bool
  | [] => strHasPre p []
  | c :: cs => strHasPre p (c :: cs) || hasSub p cs

/-- Version of strHasPre on String, mirroring clean.startswith(p). -/
def strStartsW (s p : String) : Bool := strHasPre p.data s.data

/-- Version of hasSub on String, mirroring p in clean. -/
def strContainsSub (s p : String) : Bool := hasSub p.data s.data

/-- Python str.strip: drop whitespace at both ends. -/
def pStrip (s : List Char) : List Char :=
  ((s.dropWhile isWsC).reverse.dropWhile isWsC).reverse

/-! ## The two tokenizers of the scanner -/

/-- Maximal runs of characters satisfying keep, in order; the model of
re.findall of a character-class-plus pattern.  The first argument is the
current run, reversed. -/
def findRunsAux (keep : Char → Bool) : List Char → List Char → List (List Char)
  | cur, [] => if cur.isEmpty then [] else [cur.reverse]
  | cur, c :: cs =>
    if keep c then findRunsAux keep (c :: cur) cs
    else if cur.isEmpty then findRunsAux keep [] cs
    else cur.reverse :: findRunsAux keep [] cs

/-- The model of re.findall applied to the numeric-token pattern of
line 87 of the source. -/
def findNumToks (s : List Char) : List String :=
  (findRunsAux isNumTokC [] s).map List.asString

mutual

/-- Split on runs of two or more whitespace characters, as in
re.split of a two-or-more-whitespace pattern (source line 82).  The first
argument is the current field, reversed. -/
def splitWs2Aux : List Char → List Char → List (List Char)
  | cur, [] => [cur.reverse]
  | cur, c :: cs =>
    if isWsC c then
      match cs with
      | [] => [(c :: cur).reverse]
      | c2 :: cs2 =>
        if isWsC c2 then cur.reverse :: splitWs2Skip (c2 :: cs2)
        else splitWs2Aux (c :: cur) (c2 :: cs2)
    else splitWs2Aux (c :: cur) cs
termination_by cur s => s.length
decreasing_by all_goals simp_wf

/-- Consume the rest of a separator run, then resume field collection. -/
def splitWs2Skip : List Char → List (List Char)
  | [] => [[]]
  | c :: cs => if isWsC c then splitWs2Skip cs else splitWs2Aux [c] cs
termination_by s => s.length
decreasing_by all_goals simp_wf

end

/-- Split a header string at runs of two or more whitespace characters. -/
def splitWs2 (s : List Char) : List String :=
  (splitWs2Aux [] s).map List.asString

/-- Success of the data-row regex of source line 85 on a line: optional
whitespace, a digit run, a whitespace run, a numeric-token run, and a
whitespace run (re.match anchors at the start only; the quantified group
needs one full repetition, including its trailing whitespace). -/
def dataRowMatch (s : List Char) : Bool :=
  let s1 := s.dropWhile isWsC
  let d := s1.takeWhile isDigitC
  let s2 := s1.dropWhile isDigitC
  let w1 := s2.takeWhile isWsC
  let s3 := s2.dropWhile isWsC
  let t := s3.takeWhile isNumTokC
  let s4 := s3.dropWhile isNumTokC
  !d.isEmpty && !w1.isEmpty && !t.isEmpty && !(s4.takeWhile isWsC).isEmpty

/-! ## The scanner state machine (source lines 56..125) -/

/-- One parsed table row: dict(zip(header, tokens)).  Token values are
kept as the matched substrings; the source converts each with float(). -/
abbrev Row : Type := List (String × String)

/-- Parse a data row of the active section: findall of the numeric
tokens, drop the leading atom index, zip with the current header
(source lines 87..96). -/
def rowOf (header : List String) (clean : String) : Row :=
  List.zip header ((findNumToks clean.data).drop 1)

/-- The mutable local state of the scan loop of parse_vasp_dir. -/
structure ScanState where
  header : List String
  charge : List Row
  mag_x : List Row
  mag_y : List Row
  mag_z : List Row
  read_charge : Bool
  read_mag_x : Bool
  read_mag_y : Bool
  read_mag_z : Bool
  mag_x_all : List (List Row)
  ion_step_count : Nat

/-- The state before the scan loop (source lines 56..75). -/
def initScanState : ScanState :=
  { header := [], charge := [], mag_x := [], mag_y := [], mag_z := []
    read_charge := false, read_mag_x := false, read_mag_y := false
    read_mag_z := false, mag_x_all := [], ion_step_count := 0 }

/-- Source lines 78..79: a line containing the magnetization-x marker as
a substring increments the ionic-step counter. -/
def bumpIonStep (st : ScanState) (clean : String) : ScanState :=
  if strContainsSub clean "magnetization (x)" then
    { st with ion_step_count := st.ion_step_count + 1 }
  else st

/-- Source lines 80..103: while a reading mode is active, parse header
lines and data rows, and close out on a line beginning with tot. -/
def readBlock (st : ScanState) (clean : String) : ScanState :=
  if st.read_charge || st.read_mag_x || st.read_mag_y || st.read_mag_z then
    if strStartsW clean "# of ion" then
      { st with header := (splitWs2 (pStrip clean.data)).drop 1 }
    else if dataRowMatch clean.data then
      if st.read_charge then { st with charge := st.charge ++ [rowOf st.header clean] }
      else if st.read_mag_x then { st with mag_x := st.mag_x ++ [rowOf st.header clean] }
      else if st.read_mag_y then { st with mag_y := st.mag_y ++ [rowOf st.header clean] }
      else { st with mag_z := st.mag_z ++ [rowOf st.header clean] }
    else if strStartsW clean "tot" then
      if st.ion_step_count = st.mag_x_all.length + 1 then
        { st with mag_x_all := st.mag_x_all ++ [st.mag_x],
                  read_charge := false, read_mag_x := false,
                  read_mag_y := false, read_mag_z := false }
      else
        { st with read_charge := false, read_mag_x := false,
                  read_mag_y := false, read_mag_z := false }
    else st
  else st

/-- Source lines 104..125: the marker chain switching the reading mode. -/
def markerBlock (st : ScanState) (clean : String) : ScanState :=
  if clean = "total charge" then
    { st with read_charge := true, read_mag_x := false,
              read_mag_y := false, read_mag_z := false }
  else if clean = "magnetization (x)" then
    { st with mag_x := [], read_mag_x := true, read_charge := false,
              read_mag_y := false, read_mag_z := false }
  else if clean = "magnetization (y)" then
    { st with mag_y := [], read_mag_y := true, read_charge := false,
              read_mag_x := false, read_mag_z := false }
  else if clean = "magnetization (z)" then
    { st with mag_z := [], read_mag_z := true, read_charge := false,
              read_mag_x := false, read_mag_y := false }
  else if strContainsSub clean "electrostatic" then
    { st with read_charge := false, read_mag_x := false,
              read_mag_y := false, read_mag_z := false }
  else st

/-- Processing of one cleaned line of the OUTCAR (source lines 77..125). -/
def scanStep (st : ScanState) (clean : String) : ScanState :=
  markerBlock (readBlock (bumpIonStep st clean) clean) clean

/-- The whole scan of the OUTCAR lines, in forward order after the
reverse read and the reversal of lines 63..67; each line arrives
stripped. -/
def scanOutcar (fileLines : List String) : ScanState :=
  (fileLines.map fun l => (pStrip l.data).asString).foldl scanStep initScanState

/-! ## Post-scan alignment of the magnetization tables
(source lines 127..130) -/

/-- Comparison of the completed magnetization-x tables against the
ionic-step count of the OSZICAR.  Returns the table list actually used
afterwards, and whether the Unfinished OUTCAR diagnostic was printed.
Counts are compared as Python integers. -/
def alignMagTables (oszIonicSteps : Nat) (mag_x_all : List (List Row)) :
    List (List Row) × Bool :=
  if (oszIonicSteps : Int) = (mag_x_all.length : Int) then (mag_x_all, true)
  else if (oszIonicSteps : Int) = (mag_x_all.length : Int) - 1 then
    (mag_x_all.dropLast, false)
  else (mag_x_all, false)

/-! ## File location (source lines 32..44) and dataset assembly
(source lines 132..160) -/

/-- The Python exceptions parse_vasp_dir can raise. -/
inductive VaspErr where
  | fileNotFound
  | noData
  | indexError
  | keyError
  | attrError
deriving DecidableEq

/-- The three companion paths chosen by the file-location step. -/
structure VaspPaths where
  oszicar_path : String
  vasprun_path : String
  outcar_path : String
deriving DecidableEq

/-- Source lines 32..44.  The filesystem is abstracted as the predicate
pathExists.  Note that the second branch (source line 39) re-tests the
uncompressed OSZICAR name while assigning the .gz paths, exactly as the
source does, so it can never fire. -/
def parse_vasp_dir_locate (pathExists : String → Bool) (file_root : String) :
    Except VaspErr VaspPaths :=
  if pathExists file_root = false then .error .fileNotFound
  else if pathExists (file_root ++ "/OSZICAR") then
    .ok ⟨file_root ++ "/OSZICAR", file_root ++ "/vasprun.xml",
         file_root ++ "/OUTCAR"⟩
  else if pathExists (file_root ++ "/OSZICAR") then
    .ok ⟨file_root ++ "/OSZICAR.gz", file_root ++ "/vasprun.xml.gz",
         file_root ++ "/OUTCAR.gz"⟩
  else .error .noData

/-- A filesystem holding only the compressed naming variant. -/
def gzOnlyFS : String → Bool := fun s =>
  s = "calc" ∨ s = "calc/OSZICAR.gz" ∨ s = "calc/vasprun.xml.gz" ∨
    s = "calc/OUTCAR.gz"

/-- One entry of vasprun_orig.ionic_steps, with the payloads that
parse_vasp_dir passes through unchanged held abstractly: A is the type
of one site of a structure, F of a force block, St of a stress block.
electronic_steps holds the LENGTH of the electronic-step list; stress is
present exactly when the step dict has the stress key. -/
structure IonicStep (A F St : Type) where
  structure_sites : List A
  e_0_energy : Rat
  forces : F
  electronic_steps : Nat
  stress : Option St

/-- The dataset dict built by parse_vasp_dir (source lines 134..141).
The stress field is Option: none models the None placed when the first
ionic step has no stress key. -/
structure VaspDataset (A F St : Type) where
  structure_list : List (List A)
  uncorrected_total_energy : List Rat
  energy_per_atom : List Rat
  force : List F
  magmom : List (List String)
  stress : Option (List St)

/-- Python dict lookup site[k] on a parsed row (keys are unique in the
actual tables, so first match is faithful). -/
def rowLookup (site : Row) (k : String) : Option String :=
  (List.find? (fun p => p.1 = k) site).map Prod.snd

/-- Source lines 154..155: append the tot column of table number index;
mag_x_all[index] raises IndexError when index is out of range, and
site[tot] raises KeyError when a row lacks the key. -/
def appendMagmom {A F St : Type} (mag_x_all : List (List Row)) (index : Nat)
    (ds : VaspDataset A F St) : Except VaspErr (VaspDataset A F St) :=
  if mag_x_all = [] then .ok ds
  else
    match mag_x_all[index]? with
    | none => .error .indexError
    | some table =>
      match table.mapM (fun site => rowLookup site "tot") with
      | none => .error .keyError
      | some ms => .ok { ds with magmom := ds.magmom ++ [ms] }

/-- Source lines 156..157: append the stress block when the step has
one; appending to the None placeholder raises AttributeError. -/
def appendStress {A F St : Type} (step : IonicStep A F St)
    (ds : VaspDataset A F St) : Except VaspErr (VaspDataset A F St) :=
  match step.stress with
  | none => .ok ds
  | some sv =>
    match ds.stress with
    | none => .error .attrError
    | some l => .ok { ds with stress := some (l ++ [sv]) }

/-- The body of the assembly loop (source lines 143..157) for the pair
(index, ionic_step) produced by enumerate. -/
def assembleStep {A F St : Type} (check_electronic_convergence : Bool)
    (nelm : Nat) (n_atoms : Nat) (mag_x_all : List (List Row))
    (ds : VaspDataset A F St) (ix : Nat × IonicStep A F St) :
    Except VaspErr (VaspDataset A F St) :=
  if check_electronic_convergence && decide (nelm ≤ ix.2.electronic_steps) then
    .ok ds
  else
    let ds1 : VaspDataset A F St :=
      { ds with
        structure_list := ds.structure_list ++ [ix.2.structure_sites],
        uncorrected_total_energy :=
          ds.uncorrected_total_energy ++ [ix.2.e_0_energy],
        energy_per_atom :=
          ds.energy_per_atom ++ [ix.2.e_0_energy / (n_atoms : Rat)],
        force := ds.force ++ [ix.2.forces] }
    match appendMagmom mag_x_all ix.1 ds1 with
    | .error e => .error e
    | .ok ds2 => appendStress ix.2 ds2

/-- Source lines 132..160: atom count from step 0 (IndexError when the
step list is empty), the empty dataset with the stress placeholder, the
assembly loop, and the final no-data check. -/
def parseAssemble {A F St : Type} (check_electronic_convergence : Bool)
    (nelm : Nat) (ionic_steps : List (IonicStep A F St))
    (mag_x_all : List (List Row)) : Except VaspErr (VaspDataset A F St) :=
  match ionic_steps with
  | [] => .error .indexError
  | first :: _ =>
    let n_atoms := first.structure_sites.length
    let ds0 : VaspDataset A F St :=
      { structure_list := [], uncorrected_total_energy := []
        energy_per_atom := [], force := [], magmom := []
        stress := match first.stress with | none => none | some _ => some [] }
    match (ionic_steps.enum).foldlM
        (assembleStep check_electronic_convergence nelm n_atoms mag_x_all) ds0 with
    | .error e => .error e
    | .ok ds =>
      if ds.uncorrected_total_energy = [] then .error .noData else .ok ds

/-- parse_vasp_dir after the scan: alignment of the scanned tables
against the OSZICAR ionic-step count, then assembly. -/
def parse_vasp_dir_post {A F St : Type} (check_electronic_convergence : Bool)
    (nelm : Nat) (osz_ionic_steps : Nat) (scanned_mag_x_all : List (List Row))
    (ionic_steps : List (IonicStep A F St)) :
    Except VaspErr (VaspDataset A F St) :=
  parseAssemble check_electronic_convergence nelm ionic_steps
    (alignMagTables osz_ionic_steps scanned_mag_x_all).1

/-! ## solve_charge_by_mag (source lines 169..225)

Magnetic moments are modelled as rationals.  A pymatgen Structure is
reduced to the fields the function touches: the per-site element
symbols, the optional oxidation-state decoration, and the two magmom
site properties.  Because the source mutates out_structure in place
through methods, structures live in an explicit heap of references and
each method call is a write at one reference, so that the frame effect
on the caller structure is a real statement. -/

/-- The fields of a pymatgen Structure used by solve_charge_by_mag. -/
structure PStructure where
  species : List String
  oxi_states : Option (List Int)
  final_magmom : Option (List Rat)
  magmom : Option (List Rat)
deriving DecidableEq

/-- Oxidation suffix of a decorated species symbol, as in pymatgen
species strings such as Mn2+. -/
def oxiSuffix (z : Int) : String :=
  toString z.natAbs ++ (if 0 ≤ z then "+" else "-")

/-- site.species_string for each site, decorated when oxidation states
are present. -/
def species_strings (s : PStructure) : List String :=
  match s.oxi_states with
  | none => s.species
  | some zs => (s.species.zip zs).map fun p => p.1 ++ oxiSuffix p.2

/-- Structure.remove_oxidation_states. -/
def remove_oxidation_states (s : PStructure) : PStructure :=
  { s with oxi_states := none }

/-- Structure.add_oxidation_state_by_site (always called here with one
state per site). -/
def add_oxidation_state_by_site (s : PStructure) (ox_list : List Int) :
    PStructure :=
  { s with oxi_states := some ox_list }

/-- site_properties.get(final_magmom, site_properties.get(magmom)),
source lines 201..203. -/
def site_properties_magmom (s : PStructure) : Option (List Rat) :=
  match s.final_magmom with
  | some v => some v
  | none => s.magmom

/-- The Python exceptions the solver loop can raise when its documented
precondition (magmoms present, one per site) is violated. -/
inductive SolveErr where
  | typeError
  | indexError
deriving DecidableEq

/-- Range lookup of source lines 208..212: first interval of the table,
in definition order, whose half-open range contains m. -/
def oxRangeLookup (table : List ((Rat × Rat) × Int)) (m : Rat) : Option Int :=
  match table with
  | [] => none
  | ((min_mag, max_mag), mag_ox) :: rest =>
    if min_mag ≤ m ∧ m < max_mag then some mag_ox else oxRangeLookup rest m

/-- The default default_ox table of source line 196. -/
def default_ox_table : List (String × Int) := [("Li", 1), ("O", -2)]

/-- The default Mn range table of source lines 197..199, with the
decimal literals 0.5, 1.5, 2.5, 3.5, 4.2 and 5 written as explicit
fractions. -/
def mn_ox_ranges : List ((Rat × Rat) × Int) :=
  [((mkRat 1 2, mkRat 3 2), 2), ((mkRat 3 2, mkRat 5 2), 3),
   ((mkRat 5 2, mkRat 7 2), 4), ((mkRat 7 2, mkRat 21 5), 3),
   ((mkRat 21 5, 5), 2)]

/-- The default ox_ranges table of source lines 197..199. -/
def default_ox_ranges : List (String × List ((Rat × Rat) × Int)) :=
  [("Mn", mn_ox_ranges)]

/-- Python x or default for an optional table argument: None and the
empty table are both replaced by the default (source lines 196..199). -/
def orNonempty {α : Type} (arg : Option (List α)) (dflt : List α) : List α :=
  match arg with
  | none => dflt
  | some [] => dflt
  | some (a :: l) => a :: l

/-- The body of the site loop (source lines 205..217) for one site:
the resolved oxidation state, none when the site stays unassigned, or
the exception the subscript magmoms[idx] raises. -/
def resolveSite (default_ox : List (String × Int))
    (ox_ranges : List (String × List ((Rat × Rat) × Int)))
    (magmoms : Option (List Rat)) (idx : Nat) (sp : String) :
    Except SolveErr (Option Int) :=
  match List.find? (fun p => p.1 = sp) ox_ranges with
  | some entry =>
    match magmoms with
    | none => .error .typeError
    | some ms =>
      match ms[idx]? with
      | none => .error .indexError
      | some m => .ok (oxRangeLookup entry.2 m)
  | none =>
    match List.find? (fun p => p.1 = sp) default_ox with
    | some entry => .ok (some entry.2)
    | none => .ok none

/-- The loop state (ox_list, solved_ox) after one site: an assigned
state is appended, an unassigned site clears solved_ox. -/
def solveFold (default_ox : List (String × Int))
    (ox_ranges : List (String × List ((Rat × Rat) × Int)))
    (magmoms : Option (List Rat)) (acc : List Int × Bool) (p : Nat × String) :
    Except SolveErr (List Int × Bool) :=
  match resolveSite default_ox ox_ranges magmoms p.1 p.2 with
  | .error e => .error e
  | .ok (some v) => .ok (acc.1 ++ [v], acc.2)
  | .ok none => .ok (acc.1, false)

/-- Specification-side recursion equivalent to the site loop: one
Option Int per site, in order, starting at index i. -/
def resolveFrom (default_ox : List (String × Int))
    (ox_ranges : List (String × List ((Rat × Rat) × Int)))
    (magmoms : Option (List Rat)) : Nat → List String →
    Except SolveErr (List (Option Int))
  | _, [] => .ok []
  | i, sp :: rest =>
    match resolveSite default_ox ox_ranges magmoms i sp with
    | .error e => .error e
    | .ok v =>
      match resolveFrom default_ox ox_ranges magmoms (i + 1) rest with
      | .error e => .error e
      | .ok vs => .ok (v :: vs)

/-- A heap of Structure references: references below next are live. -/
structure StructHeap where
  mem : Nat → PStructure
  next : Nat

/-- In-place mutation of the structure behind reference i. -/
def heapWrite (h : StructHeap) (i : Nat) (v : PStructure) : StructHeap :=
  { h with mem := fun j => if j = i then v else h.mem j }

/-- Structure.copy(): allocate a fresh reference holding the value. -/
def heapAlloc (h : StructHeap) (v : PStructure) : Nat × StructHeap :=
  (h.next, { mem := fun j => if j = h.next then v else h.mem j,
             next := h.next + 1 })

/-- solve_charge_by_mag of source lines 169..225, acting on the
structure behind reference sid.  Returns the result (a reference to the
updated copy, or none for the Python None), and the heap after the
call.  The printed total charge is console output and is not part of
the model. -/
def solve_charge_by_mag (h : StructHeap) (sid : Nat)
    (default_ox_arg : Option (List (String × Int)))
    (ox_ranges_arg : Option (List (String × List ((Rat × Rat) × Int)))) :
    Except SolveErr (Option Nat) × StructHeap :=
  let alloc := heapAlloc h (h.mem sid)
  let out_id := alloc.1
  let h1 := alloc.2
  let h2 := heapWrite h1 out_id (remove_oxidation_states (h1.mem out_id))
  let default_ox := orNonempty default_ox_arg default_ox_table
  let ox_ranges := orNonempty ox_ranges_arg default_ox_ranges
  let magmoms := site_properties_magmom (h2.mem sid)
  match ((species_strings (h2.mem out_id)).enum).foldlM
      (solveFold default_ox ox_ranges magmoms) ([], true) with
  | .error e => (.error e, h2)
  | .ok (ox_list, solved_ox) =>
    if solved_ox then
      (.ok (some out_id),
       heapWrite h2 out_id (add_oxidation_state_by_site (h2.mem out_id) ox_list))
    else (.ok none, h2)

/-! ## Concrete instances used by witnesses and counterexamples -/

/-- A two-site Mn/Li structure whose Mn moment is the boundary value
3.5 (written mkRat 7 2). -/
def pstructMnLi : PStructure :=
  { species := ["Mn", "Li"], oxi_states := none, final_magmom := none,
    magmom := some [mkRat 7 2, 0] }

/-- A one-reference heap holding pstructMnLi. -/
def heapMnLi : StructHeap := { mem := fun _ => pstructMnLi, next := 1 }

/-- The empty dataset over trivial payloads. -/
def dsEmptyU : VaspDataset Unit Unit Unit :=
  { structure_list := [], uncorrected_total_energy := [], energy_per_atom := []
    force := [], magmom := [], stress := none }

/-- A one-atom converged ionic step (0 electronic steps). -/
def stepConvU : IonicStep Unit Unit Unit := ⟨[()], 1, (), 0, none⟩

/-- A one-atom unconverged ionic step (100 electronic steps). -/
def stepUnconvU : IonicStep Unit Unit Unit := ⟨[()], 1, (), 100, none⟩

/-- One completed magnetization table of one row with a tot column. -/
def sampleTable : List Row := [[("tot", "1.0")]]

/-- The dataset after including stepConvU into dsEmptyU. -/
def dsIncludedU : VaspDataset Unit Unit Unit :=
  { structure_list := dsEmptyU.structure_list ++ [stepConvU.structure_sites]
    uncorrected_total_energy :=
      dsEmptyU.uncorrected_total_energy ++ [stepConvU.e_0_energy]
    energy_per_atom :=
      dsEmptyU.energy_per_atom ++ [stepConvU.e_0_energy / ((1 : Nat) : Rat)]
    force := dsEmptyU.force ++ [stepConvU.forces]
    magmom := dsEmptyU.magmom, stress := dsEmptyU.stress }

/-! ## Helper lemmas for the scanner theorems -/

theorem strHasPre_shape {a : Char} {p s : List Char}
    (h : strHasPre (a :: p) s = true) :
    ∃ r, s = a :: r ∧ strHasPre p r = true := by
  cases s with
  | nil => simp [strHasPre] at h
  | cons b ss =>
    simp only [strHasPre, Bool.and_eq_true, decide_eq_true_eq] at h
    exact ⟨ss, by rw [h.1], h.2⟩

theorem tot_shape {clean : String} (h : strStartsW clean "tot" = true) :
    ∃ r, clean.data = 't' :: 'o' :: 't' :: r := by
  rw [strStartsW] at h
  obtain ⟨r1, h1, h2⟩ := strHasPre_shape h
  obtain ⟨r2, h3, h4⟩ := strHasPre_shape h2
  obtain ⟨r3, h5, _⟩ := strHasPre_shape h4
  exact ⟨r3, by rw [h1, h3, h5]⟩

theorem tot_not_dataRow {r : List Char} :
    dataRowMatch ('t' :: 'o' :: 't' :: r) = false := by
  have h1 : isWsC 't' = false := rfl
  have h2 : isDigitC 't' = false := rfl
  simp [dataRowMatch, List.dropWhile_cons, List.takeWhile_cons, h1, h2]

theorem readBlock_ion_step_count (st : ScanState) (c : String) :
    (readBlock st c).ion_step_count = st.ion_step_count := by
  unfold readBlock
  repeat' split
  all_goals rfl

theorem markerBlock_ion_step_count (st : ScanState) (c : String) :
    (markerBlock st c).ion_step_count = st.ion_step_count := by
  unfold markerBlock
  repeat' split
  all_goals rfl

theorem markerBlock_mag_x_all (st : ScanState) (c : String) :
    (markerBlock st c).mag_x_all = st.mag_x_all := by
  unfold markerBlock
  repeat' split
  all_goals rfl

theorem readBlock_tot (st : ScanState) (clean : String)
    (hact : (st.read_charge || st.read_mag_x || st.read_mag_y || st.read_mag_z)
      = true)
    (htot : strStartsW clean "tot" = true) :
    readBlock st clean =
      (if st.ion_step_count = st.mag_x_all.length + 1 then
        { st with mag_x_all := st.mag_x_all ++ [st.mag_x],
                  read_charge := false, read_mag_x := false,
                  read_mag_y := false, read_mag_z := false }
      else
        { st with read_charge := false, read_mag_x := false,
                  read_mag_y := false, read_mag_z := false }) := by
  obtain ⟨r, hr⟩ := tot_shape htot
  have hpre : strStartsW clean "# of ion" = false := by rw [strStartsW, hr]; rfl
  have hdrm : dataRowMatch clean.data = false := by rw [hr]; exact tot_not_dataRow
  rw [readBlock, if_pos hact, if_neg (by simp [hpre]), if_neg (by simp [hdrm]),
    if_pos htot]

theorem bumpIonStep_spec (st : ScanState) (c : String) :
    (bumpIonStep st c).ion_step_count =
      (if strContainsSub c "magnetization (x)" then st.ion_step_count + 1
       else st.ion_step_count) ∧
    (bumpIonStep st c).mag_x_all = st.mag_x_all ∧
    (bumpIonStep st c).mag_x = st.mag_x := by
  unfold bumpIonStep
  split <;> simp_all

theorem readBlock_mag_x_all_cases (st : ScanState) (c : String) :
    (readBlock st c).mag_x_all = st.mag_x_all ∨
    ((readBlock st c).mag_x_all = st.mag_x_all ++ [st.mag_x] ∧
      st.ion_step_count = st.mag_x_all.length + 1) := by
  unfold readBlock
  repeat' split
  all_goals first
    | exact Or.inl rfl
    | exact Or.inr ⟨rfl, by assumption⟩

theorem scanStep_invariant {st : ScanState} (c : String)
    (h : st.mag_x_all.length ≤ st.ion_step_count) :
    (scanStep st c).mag_x_all.length ≤ (scanStep st c).ion_step_count := by
  unfold scanStep
  rw [markerBlock_mag_x_all, markerBlock_ion_step_count, readBlock_ion_step_count]
  obtain ⟨hb1, hb2, _⟩ := bumpIonStep_spec st c
  rcases readBlock_mag_x_all_cases (bumpIonStep st c) c with h1 | ⟨h1, h2⟩ <;>
    rw [h1, hb2] <;> rw [hb1] <;> split <;> simp_all <;> omega

/-! ## C1 -/

/-- C1: the source is meant to fall back to the compressed naming
variant, but the branch of source line 39 re-tests the uncompressed
OSZICAR name, so a directory holding only the .gz variant reaches the
no-data error instead of being parsed.  The theorem evaluates the
file-location step on such a directory. -/
theorem gz_variant_unreachable_noData :
    parse_vasp_dir_locate gzOnlyFS "calc" = .error .noData ∧
    gzOnlyFS "calc/OSZICAR.gz" = true := ⟨rfl, by decide⟩

/-! ## C3 -/

/-- C3: range lookup takes the first interval in table-definition order
whose half-open range contains the moment (find? with an inclusive
lower and exclusive upper bound), and on the default Mn table the
boundary moment 3.5 resolves to oxidation state 3, not 4. -/
theorem ox_range_first_half_open_interval :
    (∀ (table : List ((Rat × Rat) × Int)) (m : Rat),
      oxRangeLookup table m =
        (List.find? (fun p => decide (p.1.1 ≤ m ∧ m < p.1.2)) table).map
          Prod.snd) ∧
    oxRangeLookup mn_ox_ranges (mkRat 7 2) = some 3 ∧
    resolveSite default_ox_table default_ox_ranges (some [mkRat 7 2]) 0 "Mn" =
      .ok (some 3) := by
  refine ⟨fun table m => ?_, by decide, ?_⟩
  case refine_2 =>
    show Except.ok (oxRangeLookup mn_ox_ranges (mkRat 7 2)) =
      Except.ok (Option.some 3)
    rw [show oxRangeLookup mn_ox_ranges (mkRat 7 2) = some 3 from by decide]
  induction table with
  | nil => rfl
  | cons p rest ih =>
    obtain ⟨⟨lo, hi⟩, z⟩ := p
    by_cases h : lo ≤ m ∧ m < hi
    · rw [oxRangeLookup, if_pos h, List.find?_cons_of_pos _ (by simpa using h)]
      rfl
    · rw [oxRangeLookup, if_neg h, List.find?_cons_of_neg _ (by simpa using h)]
      exact ih

/-! ## C4 -/

/-- C4 counterexample: a line merely containing the magnetization-x
marker as a substring, without matching it exactly, still increments
the ionic-step counter, and does not switch the reading mode. -/
theorem ion_count_substring_cex :
    (scanOutcar ["ab magnetization (x) cd"]).ion_step_count = 1 ∧
    (scanOutcar ["ab magnetization (x) cd"]).read_mag_x = false ∧
    (scanOutcar ["ab magnetization (x) cd"]).mag_x_all = [] ∧
    ("ab magnetization (x) cd" : String) ≠ "magnetization (x)" :=
  ⟨rfl, rfl, rfl, by decide⟩

/-- C4 (amended): the ionic-step counter is incremented exactly when
the line contains the magnetization-x marker as a substring; a line
exactly equal to the marker additionally switches into
magnetization-x mode with a fresh current table. -/
theorem ion_count_increment_substring (st : ScanState) (clean : String) :
    (scanStep st clean).ion_step_count =
      (if strContainsSub clean "magnetization (x)" then st.ion_step_count + 1
       else st.ion_step_count) ∧
    (clean = "magnetization (x)" →
      (scanStep st clean).read_mag_x = true ∧ (scanStep st clean).mag_x = []) := by
  constructor
  · rw [scanStep, markerBlock_ion_step_count, readBlock_ion_step_count,
      (bumpIonStep_spec st clean).1]
  · intro h
    subst h
    rw [scanStep, markerBlock, if_neg (by decide), if_pos rfl]
    exact ⟨rfl, rfl⟩

/-- Witness for C4 at the exact marker line from the empty start
state. -/
theorem ion_count_increment_substring_wit :
    (scanStep initScanState "magnetization (x)").ion_step_count = 1 ∧
    (scanStep initScanState "magnetization (x)").read_mag_x = true := by
  have h := ion_count_increment_substring initScanState "magnetization (x)"
  exact ⟨by rw [h.1]; rfl, (h.2 rfl).1⟩

/-! ## C5 -/

/-- C5: while a reading mode is active, a line beginning with tot
resets every mode flag and appends the current magnetization-x table
exactly when the ionic-step counter equals one plus the number of
completed tables; consequently the completed-table count never exceeds
the ionic-step counter after any scan. -/
theorem tot_closeout_table_invariant :
    (∀ (st : ScanState) (clean : String),
      (st.read_charge || st.read_mag_x || st.read_mag_y || st.read_mag_z)
        = true →
      strStartsW clean "tot" = true →
      ((readBlock st clean).read_charge = false ∧
       (readBlock st clean).read_mag_x = false ∧
       (readBlock st clean).read_mag_y = false ∧
       (readBlock st clean).read_mag_z = false) ∧
      ((readBlock st clean).mag_x_all = st.mag_x_all ++ [st.mag_x] ↔
        st.ion_step_count = st.mag_x_all.length + 1) ∧
      (st.ion_step_count ≠ st.mag_x_all.length + 1 →
        (readBlock st clean).mag_x_all = st.mag_x_all)) ∧
    ∀ lines : List String,
      (scanOutcar lines).mag_x_all.length ≤ (scanOutcar lines).ion_step_count := by
  constructor
  · intro st clean hact htot
    rw [readBlock_tot st clean hact htot]
    by_cases h : st.ion_step_count = st.mag_x_all.length + 1
    · rw [if_pos h]
      exact ⟨⟨rfl, rfl, rfl, rfl⟩, ⟨fun _ => h, fun _ => rfl⟩, fun hc => absurd h hc⟩
    · rw [if_neg h]
      refine ⟨⟨rfl, rfl, rfl, rfl⟩, ⟨fun he => ?_, fun hc => absurd hc h⟩,
        fun _ => rfl⟩
      exact absurd (congrArg List.length he) (by simp)
  · intro lines
    have main : ∀ (ls : List String) (st : ScanState),
        st.mag_x_all.length ≤ st.ion_step_count →
        (ls.foldl scanStep st).mag_x_all.length ≤
          (ls.foldl scanStep st).ion_step_count := by
      intro ls
      induction ls with
      | nil => intro st h; exact h
      | cons a ls ih => intro st h; exact ih _ (scanStep_invariant a h)
    exact main _ initScanState (by simp [initScanState])

/-- Witness for C5: one concrete close-out while magnetization-x mode
is active and the counter is one ahead of the completed tables. -/
theorem tot_closeout_table_invariant_wit :
    ((readBlock { initScanState with read_mag_x := true, ion_step_count := 1 }
        "tot  0.5").read_mag_x = false) ∧
    ((readBlock { initScanState with read_mag_x := true, ion_step_count := 1 }
        "tot  0.5").mag_x_all = [[]]) := by
  have h := tot_closeout_table_invariant.1
    { initScanState with read_mag_x := true, ion_step_count := 1 } "tot  0.5"
    rfl rfl
  exact ⟨h.1.2.1, by simpa using h.2.1.mpr rfl⟩

/-! ## C6 -/

/-- C6: with N OSZICAR ionic steps and exactly N+1 completed tables the
alignment drops exactly the last table, leaving N, with no diagnostic;
with equal counts it only prints the unfinished diagnostic and drops
nothing. -/
theorem align_drop_or_diagnose (tables : List (List Row)) (n : Nat) :
    (tables.length = n + 1 →
      alignMagTables n tables = (tables.dropLast, false) ∧
      (alignMagTables n tables).1.length = n) ∧
    (tables.length = n → alignMagTables n tables = (tables, true)) := by
  constructor
  · intro h
    have h1 : ¬((n : Int) = (tables.length : Int)) := by rw [h]; push_cast; omega
    have h2 : (n : Int) = (tables.length : Int) - 1 := by rw [h]; push_cast; omega
    have he : alignMagTables n tables = (tables.dropLast, false) := by
      rw [alignMagTables, if_neg h1, if_pos h2]
    exact ⟨he, by rw [he]; simp [h]⟩
  · intro h
    rw [alignMagTables, if_pos (by rw [h])]

/-- Witness for C6 at two completed tables, against one and against two
OSZICAR steps. -/
theorem align_drop_or_diagnose_wit :
    (alignMagTables 1 [[], []] = (List.dropLast [[], []], false) ∧
      (alignMagTables 1 [[], []]).1.length = 1) ∧
    alignMagTables 2 [[], []] = ([[], []], true) :=
  ⟨(align_drop_or_diagnose [[], []] 1).1 rfl,
   (align_drop_or_diagnose [[], []] 2).2 rfl⟩

/-! ## Helper lemmas for the assembly theorems -/

theorem appendMagmom_fields {A F St : Type} {mag_x_all : List (List Row)}
    {index : Nat} {ds ds' : VaspDataset A F St}
    (h : appendMagmom mag_x_all index ds = .ok ds') :
    ds'.uncorrected_total_energy = ds.uncorrected_total_energy ∧
    ds'.structure_list = ds.structure_list ∧
    ds'.force = ds.force ∧
    ds'.energy_per_atom = ds.energy_per_atom := by
  rw [appendMagmom] at h
  split at h
  · cases h; exact ⟨rfl, rfl, rfl, rfl⟩
  · split at h
    · cases h
    · split at h
      · cases h
      · cases h; exact ⟨rfl, rfl, rfl, rfl⟩

theorem appendStress_fields {A F St : Type} {step : IonicStep A F St}
    {ds ds' : VaspDataset A F St} (h : appendStress step ds = .ok ds') :
    ds'.uncorrected_total_energy = ds.uncorrected_total_energy ∧
    ds'.structure_list = ds.structure_list ∧
    ds'.force = ds.force ∧
    ds'.energy_per_atom = ds.energy_per_atom := by
  rw [appendStress] at h
  split at h
  · cases h; exact ⟨rfl, rfl, rfl, rfl⟩
  · split at h
    · cases h
    · cases h; exact ⟨rfl, rfl, rfl, rfl⟩

theorem assembleStep_not_skip_fields {A F St : Type} {check : Bool}
    {nelm n_atoms : Nat} {mag_x_all : List (List Row)}
    {ds ds' : VaspDataset A F St} {index : Nat} {step : IonicStep A F St}
    (hc : (check && decide (nelm ≤ step.electronic_steps)) = false)
    (h : assembleStep check nelm n_atoms mag_x_all ds (index, step) = .ok ds') :
    ds'.uncorrected_total_energy =
      ds.uncorrected_total_energy ++ [step.e_0_energy] ∧
    ds'.structure_list = ds.structure_list ++ [step.structure_sites] ∧
    ds'.force = ds.force ++ [step.forces] ∧
    ds'.energy_per_atom =
      ds.energy_per_atom ++ [step.e_0_energy / (n_atoms : Rat)] := by
  simp only [assembleStep, hc, Bool.false_eq_true, if_false] at h
  split at h
  · cases h
  · rename_i ds2 hm
    obtain ⟨h1, h2, h3, h4⟩ := appendStress_fields h
    obtain ⟨g1, g2, g3, g4⟩ := appendMagmom_fields hm
    simp_all

theorem not_skip_bool {check : Bool} {nelm e : Nat}
    (hc : ¬(check = true ∧ nelm ≤ e)) :
    (check && decide (nelm ≤ e)) = false := by
  rcases Bool.eq_false_or_eq_true check with h | h <;> simp [h] at hc ⊢
  exact hc

theorem foldlM_skip {A F St : Type} (check : Bool) (nelm n_atoms : Nat)
    (mag_x_all : List (List Row)) :
    ∀ (l : List (IonicStep A F St)) (n : Nat) (ds : VaspDataset A F St),
    (∀ s ∈ l, check = true ∧ nelm ≤ s.electronic_steps) →
    (List.enumFrom n l).foldlM
      (assembleStep check nelm n_atoms mag_x_all) ds = .ok ds := by
  intro l
  induction l with
  | nil => intro n ds _; rfl
  | cons a l ih =>
    intro n ds hall
    have ha := hall a (List.mem_cons_self a l)
    have hskip : assembleStep check nelm n_atoms mag_x_all ds (n, a) = .ok ds := by
      rw [assembleStep, if_pos (by simp [ha.1, ha.2])]
    show ((n, a) :: List.enumFrom (n + 1) l).foldlM
      (assembleStep check nelm n_atoms mag_x_all) ds = .ok ds
    rw [List.foldlM_cons, hskip]
    exact ih (n + 1) ds (fun s hs => hall s (List.mem_cons_of_mem a hs))

/-! ## C2 -/

/-- C2 counterexample: one completed table against an OSZICAR count of
2 (neither equal nor a one-table surplus) and two surviving structured
steps: parse_vasp_dir raises IndexError through the magmom lookup
instead of completing. -/
theorem magmom_lookup_short_tables_cex :
    parse_vasp_dir_post false 60 2 [sampleTable] [stepConvU, stepConvU] =
      Except.error VaspErr.indexError ∧
    [sampleTable].length ≠ 2 ∧ [sampleTable].length ≠ 2 + 1 :=
  ⟨rfl, by decide, by decide⟩

/-- C2 (amended): on a mismatch other than a one-table surplus the
alignment drops nothing and prints nothing, and the run is not
exception-free: any surviving step whose index lies outside the
non-empty completed-table list makes the per-step magmom lookup raise
IndexError. -/
theorem mismatch_no_drop_and_index_error :
    (∀ (osz : Nat) (tables : List (List Row)),
      osz ≠ tables.length → (osz : Int) ≠ (tables.length : Int) - 1 →
      alignMagTables osz tables = (tables, false)) ∧
    (∀ (A F St : Type) (check : Bool) (nelm n_atoms index : Nat)
      (mag_x_all : List (List Row)) (ds : VaspDataset A F St)
      (step : IonicStep A F St),
      mag_x_all ≠ [] → mag_x_all[index]? = none →
      ¬(check = true ∧ nelm ≤ step.electronic_steps) →
      assembleStep check nelm n_atoms mag_x_all ds (index, step) =
        .error .indexError) := by
  constructor
  · intro osz tables h1 h2
    rw [alignMagTables, if_neg (by exact_mod_cast h1), if_neg h2]
  · intro A F St check nelm n_atoms index mag_x_all ds step hne hidx hc
    simp only [assembleStep, not_skip_bool hc, Bool.false_eq_true, if_false]
    simp [appendMagmom, hne, hidx]

/-- Witness for C2 at the concrete mismatch 2 OSZICAR steps against one
table, and the out-of-range lookup at step index 1. -/
theorem mismatch_no_drop_and_index_error_wit :
    alignMagTables 2 [sampleTable] = ([sampleTable], false) ∧
    assembleStep false 60 1 [sampleTable] dsEmptyU (1, stepConvU) =
      Except.error VaspErr.indexError :=
  ⟨mismatch_no_drop_and_index_error.1 2 [sampleTable] (by decide) (by decide),
   mismatch_no_drop_and_index_error.2 Unit Unit Unit false 60 1 1 [sampleTable]
     dsEmptyU stepConvU (by decide) (by decide) (by decide)⟩

/-! ## C8 -/

/-- C8: an ionic step is passed through unchanged (skipped) exactly
when convergence checking is on and its electronic-step count reached
the NELM budget; otherwise, whenever the step completes, its structure,
raw energy, per-atom energy and forces are appended to the dataset. -/
theorem convergence_filter_membership (A F St : Type) (check : Bool)
    (nelm n_atoms : Nat) (mag_x_all : List (List Row))
    (ds : VaspDataset A F St) (index : Nat) (step : IonicStep A F St) :
    (assembleStep check nelm n_atoms mag_x_all ds (index, step) = .ok ds ↔
      check = true ∧ nelm ≤ step.electronic_steps) ∧
    (¬(check = true ∧ nelm ≤ step.electronic_steps) →
      ∀ ds', assembleStep check nelm n_atoms mag_x_all ds (index, step) = .ok ds' →
        ds'.uncorrected_total_energy =
          ds.uncorrected_total_energy ++ [step.e_0_energy] ∧
        ds'.structure_list = ds.structure_list ++ [step.structure_sites] ∧
        ds'.force = ds.force ++ [step.forces] ∧
        ds'.energy_per_atom =
          ds.energy_per_atom ++ [step.e_0_energy / (n_atoms : Rat)]) := by
  constructor
  · constructor
    · intro h
      by_cases hc : check = true ∧ nelm ≤ step.electronic_steps
      · exact hc
      · obtain ⟨h1, _⟩ := assembleStep_not_skip_fields (not_skip_bool hc) h
        exact absurd (congrArg List.length h1) (by simp)
    · intro hc
      rw [assembleStep, if_pos (by simp [hc.1, hc.2])]
  · exact fun hc ds' h => assembleStep_not_skip_fields (not_skip_bool hc) h

/-- Witness for C8: the unconverged step is skipped under checking, and
the converged step is appended when not skipped. -/
theorem convergence_filter_membership_wit :
    (assembleStep true 60 1 [] dsEmptyU (0, stepUnconvU) = .ok dsEmptyU) ∧
    dsIncludedU.uncorrected_total_energy =
      dsEmptyU.uncorrected_total_energy ++ [stepConvU.e_0_energy] :=
  ⟨(convergence_filter_membership Unit Unit Unit true 60 1 [] dsEmptyU 0
      stepUnconvU).1.mpr ⟨rfl, by decide⟩,
   ((convergence_filter_membership Unit Unit Unit false 60 1 [] dsEmptyU 0
      stepConvU).2 (by decide) dsIncludedU rfl).1⟩

/-! ## C9 -/

/-- C9 counterexample: with an empty structured step list, zero steps
survive the filter, yet the raised error is the IndexError of the
atom-count lookup ionic_steps[0] (source line 132), not the no-data
RuntimeError. -/
theorem empty_ionic_steps_cex :
    parseAssemble true 60 ([] : List (IonicStep Unit Unit Unit)) [] =
      Except.error VaspErr.indexError ∧
    VaspErr.indexError ≠ VaspErr.noData := ⟨rfl, by decide⟩

/-- C9 (amended): whenever the structured output has at least one ionic
step and every step fails the convergence filter, parse_vasp_dir raises
the no-data error after the full scan. -/
theorem all_filtered_noData (A F St : Type) (check : Bool) (nelm : Nat)
    (steps : List (IonicStep A F St)) (mag_x_all : List (List Row))
    (hne : steps ≠ [])
    (hall : ∀ s ∈ steps, check = true ∧ nelm ≤ s.electronic_steps) :
    parseAssemble check nelm steps mag_x_all = .error .noData := by
  obtain ⟨first, rest, rfl⟩ : ∃ a l, steps = a :: l := by
    cases steps with
    | nil => exact absurd rfl hne
    | cons a l => exact ⟨a, l, rfl⟩
  simp only [parseAssemble]
  rw [show List.enum (first :: rest) = List.enumFrom 0 (first :: rest) from rfl,
    foldlM_skip check nelm first.structure_sites.length mag_x_all
      (first :: rest) 0 _ hall]
  rfl

/-- Witness for C9 with one unconverged step against NELM 60. -/
theorem all_filtered_noData_wit :
    parseAssemble true 60 [stepUnconvU] [] = Except.error VaspErr.noData :=
  all_filtered_noData Unit Unit Unit true 60 [stepUnconvU] [] (by simp)
    (by intro s hs; rw [List.mem_singleton] at hs; subst hs; exact ⟨rfl, by decide⟩)

/-! ## Helper lemmas for the solver theorems -/

theorem species_strings_remove (s : PStructure) :
    species_strings (remove_oxidation_states s) = s.species := rfl

theorem foldlM_solveFold_eq (dox : List (String × Int))
    (oxr : List (String × List ((Rat × Rat) × Int)))
    (mm : Option (List Rat)) :
    ∀ (sps : List String) (i : Nat) (acc : List Int × Bool),
    (List.enumFrom i sps).foldlM (solveFold dox oxr mm) acc =
      (match resolveFrom dox oxr mm i sps with
       | .error e => .error e
       | .ok vl => .ok (acc.1 ++ vl.filterMap id, acc.2 && vl.all Option.isSome)) := by
  intro sps
  induction sps with
  | nil => intro i acc; simp [resolveFrom]; rfl
  | cons sp rest ih =>
    intro i acc
    show ((i, sp) :: List.enumFrom (i + 1) rest).foldlM (solveFold dox oxr mm) acc = _
    rw [List.foldlM_cons]
    rcases hres : resolveSite dox oxr mm i sp with e | v
    · simp [solveFold, hres, resolveFrom, Bind.bind, Except.bind]
    · rcases v with _ | v0
      · simp only [solveFold, hres]
        show (List.enumFrom (i + 1) rest).foldlM (solveFold dox oxr mm) (acc.1, false) = _
        rw [ih (i + 1) (acc.1, false)]
        rcases hrest : resolveFrom dox oxr mm (i + 1) rest with e | vs
        · simp [resolveFrom, hres, hrest]
        · simp [resolveFrom, hres, hrest]
      · simp only [solveFold, hres]
        show (List.enumFrom (i + 1) rest).foldlM (solveFold dox oxr mm)
          (acc.1 ++ [v0], acc.2) = _
        rw [ih (i + 1) (acc.1 ++ [v0], acc.2)]
        rcases hrest : resolveFrom dox oxr mm (i + 1) rest with e | vs
        · simp [resolveFrom, hres, hrest]
        · simp [resolveFrom, hres, hrest, Bool.and_assoc]

theorem resolveSite_total (dox : List (String × Int))
    (oxr : List (String × List ((Rat × Rat) × Int))) (ms : List Rat)
    (i : Nat) (sp : String) (hi : i < ms.length) :
    ∃ v, resolveSite dox oxr (some ms) i sp = .ok v := by
  unfold resolveSite
  split
  · dsimp only
    rw [List.getElem?_eq_getElem hi]
    exact ⟨_, rfl⟩
  · split
    · exact ⟨_, rfl⟩
    · exact ⟨none, rfl⟩

theorem resolveFrom_total (dox : List (String × Int))
    (oxr : List (String × List ((Rat × Rat) × Int))) (ms : List Rat) :
    ∀ (sps : List String) (i : Nat), i + sps.length ≤ ms.length →
    ∃ vl, resolveFrom dox oxr (some ms) i sps = .ok vl ∧
      vl.length = sps.length ∧
      ∀ j sp, sps[j]? = some sp →
        ∃ v, resolveSite dox oxr (some ms) (i + j) sp = .ok v ∧ vl[j]? = some v := by
  intro sps
  induction sps with
  | nil =>
    intro i _
    exact ⟨[], rfl, rfl, fun j sp hj => by simp at hj⟩
  | cons sp rest ih =>
    intro i hle
    obtain ⟨v, hv⟩ := resolveSite_total dox oxr ms i sp (by simp at hle; omega)
    obtain ⟨vl, hvl, hlen, hpt⟩ := ih (i + 1) (by simp at hle ⊢; omega)
    refine ⟨v :: vl, ?_, by simp [hlen], ?_⟩
    · rw [resolveFrom, hv, hvl]
    · intro j sq hj
      cases j with
      | zero =>
        simp only [List.getElem?_cons_zero, Option.some_inj] at hj
        subst hj
        exact ⟨v, by simpa using hv, by simp⟩
      | succ j =>
        simp only [List.getElem?_cons_succ] at hj
        obtain ⟨w, hw1, hw2⟩ := hpt j sq hj
        exact ⟨w, by rw [show i + (j + 1) = i + 1 + j by omega]; exact hw1,
          by simpa using hw2⟩

theorem filterMap_id_all_some :
    ∀ vl : List (Option Int), vl.all Option.isSome = true →
    (vl.filterMap id).map some = vl := by
  intro vl
  induction vl with
  | nil => intro _; rfl
  | cons v vs ih =>
    intro h
    simp only [List.all_cons, Bool.and_eq_true] at h
    rcases v with _ | v0
    · simp [Option.isSome] at h
    · simp only [List.filterMap_cons, id]
      rw [List.map_cons, ih h.2]

/-! ## C10 -/

/-- C10: solve_charge_by_mag never mutates the caller structure: all
stripping and assignment happen on the freshly allocated copy, so the
structure behind the input reference is unchanged in every outcome. -/
theorem solver_frame_input_unchanged (h : StructHeap) (sid : Nat)
    (dox : Option (List (String × Int)))
    (oxr : Option (List (String × List ((Rat × Rat) × Int))))
    (hsid : sid < h.next) :
    (solve_charge_by_mag h sid dox oxr).2.mem sid = h.mem sid := by
  have hne : ¬(sid = h.next) := Nat.ne_of_lt hsid
  simp only [solve_charge_by_mag, heapAlloc, heapWrite]
  split
  · simp [hne]
  · split <;> simp [hne]

/-- C7: under the documented precondition (a magmom site property with
one moment per site), solve_charge_by_mag raises no exception; it
returns the None result exactly when some site fails to resolve, and
otherwise returns the updated copy carrying exactly the per-site
resolved oxidation states - never a partially assigned structure. -/
theorem solver_all_or_nothing (h : StructHeap) (sid : Nat)
    (dox : Option (List (String × Int)))
    (oxr : Option (List (String × List ((Rat × Rat) × Int))))
    (ms : List Rat) (hsid : sid < h.next)
    (hm : site_properties_magmom (h.mem sid) = some ms)
    (hlen : ms.length = (h.mem sid).species.length) :
    (∀ e, (solve_charge_by_mag h sid dox oxr).1 ≠ .error e) ∧
    ((solve_charge_by_mag h sid dox oxr).1 = .ok none ∨
      (solve_charge_by_mag h sid dox oxr).1 = .ok (some h.next)) ∧
    ((solve_charge_by_mag h sid dox oxr).1 = .ok none ↔
      ∃ i sp, (h.mem sid).species[i]? = some sp ∧
        resolveSite (orNonempty dox default_ox_table)
          (orNonempty oxr default_ox_ranges) (some ms) i sp = .ok none) ∧
    ((solve_charge_by_mag h sid dox oxr).1 = .ok (some h.next) →
      ∃ l, (solve_charge_by_mag h sid dox oxr).2.mem h.next =
          { h.mem sid with oxi_states := some l } ∧
        l.length = (h.mem sid).species.length ∧
        ∀ i sp, (h.mem sid).species[i]? = some sp →
          ∃ v, resolveSite (orNonempty dox default_ox_table)
            (orNonempty oxr default_ox_ranges) (some ms) i sp = .ok (some v) ∧
            l[i]? = some v) := by
  have hne : ¬(sid = h.next) := Nat.ne_of_lt hsid
  obtain ⟨vl, hvl, hvlen, hpt⟩ := resolveFrom_total
    (orNonempty dox default_ox_table) (orNonempty oxr default_ox_ranges) ms
    (h.mem sid).species 0 (by omega)
  have hpt0 : ∀ i sp, (h.mem sid).species[i]? = some sp →
      ∃ v, resolveSite (orNonempty dox default_ox_table)
        (orNonempty oxr default_ox_ranges) (some ms) i sp = .ok v ∧
        vl[i]? = some v := by
    intro i sp hi
    obtain ⟨v, hv1, hv2⟩ := hpt i sp hi
    rw [Nat.zero_add] at hv1
    exact ⟨v, hv1, hv2⟩
  have hfold : List.foldlM
      (solveFold (orNonempty dox default_ox_table)
        (orNonempty oxr default_ox_ranges) (some ms))
      (([] : List Int), true) (List.enum (h.mem sid).species) =
      .ok (vl.filterMap id, vl.all Option.isSome) := by
    rw [show List.enum (h.mem sid).species
        = List.enumFrom 0 (h.mem sid).species from rfl,
      foldlM_solveFold_eq, hvl]
    simp
  have hfst : (solve_charge_by_mag h sid dox oxr).1 =
      (if vl.all Option.isSome then Except.ok (some h.next)
       else Except.ok none) := by
    simp only [solve_charge_by_mag, heapAlloc, heapWrite]
    simp only [hne, if_false, if_pos, ite_true, ite_false, eq_self_iff_true,
      if_true, species_strings_remove, hm]
    rw [hfold]
    by_cases hb : vl.all Option.isSome <;> simp [hb]
  have hsnd : vl.all Option.isSome = true →
      (solve_charge_by_mag h sid dox oxr).2.mem h.next =
        { h.mem sid with oxi_states := some (vl.filterMap id) } := by
    intro hb
    simp only [solve_charge_by_mag, heapAlloc, heapWrite]
    simp only [hne, if_false, if_pos, ite_true, ite_false, eq_self_iff_true,
      if_true, species_strings_remove, hm]
    rw [hfold]
    simp [hb, add_oxidation_state_by_site, remove_oxidation_states]
  by_cases hb : vl.all Option.isSome = true
  · -- every site resolved
    have hmap := filterMap_id_all_some vl hb
    refine ⟨?_, Or.inr ?_, ⟨?_, ?_⟩, ?_⟩
    · intro e; rw [hfst, if_pos hb]; simp
    · rw [hfst, if_pos hb]
    · intro hnone
      rw [hfst, if_pos hb] at hnone
      simp at hnone
    · intro ⟨i, sp, hsp, hres⟩
      obtain ⟨v, hv1, hv2⟩ := hpt0 i sp hsp
      rw [hres] at hv1
      cases hv1
      have : (none : Option Int) ∈ vl := List.getElem?_mem hv2
      have := List.all_eq_true.mp hb _ this
      simp [Option.isSome] at this
    · intro _
      refine ⟨vl.filterMap id, hsnd hb, ?_, ?_⟩
      · have := congrArg List.length hmap
        simp only [List.length_map] at this
        omega
      · intro i sp hsp
        obtain ⟨v, hv1, hv2⟩ := hpt0 i sp hsp
        have hvmem : v ∈ vl := List.getElem?_mem hv2
        have hvsome := List.all_eq_true.mp hb _ hvmem
        obtain ⟨v0, rfl⟩ := Option.isSome_iff_exists.mp hvsome
        refine ⟨v0, hv1, ?_⟩
        have : ((vl.filterMap id).map some)[i]? = some (some v0) := by
          rw [hmap]; exact hv2
        rw [List.getElem?_map] at this
        rcases hq : (vl.filterMap id)[i]? with _ | w
        · rw [hq] at this; simp at this
        · rw [hq] at this; simp at this; rw [this]
  · -- some site failed to resolve
    refine ⟨?_, Or.inl ?_, ⟨fun _ => ?_, fun _ => ?_⟩, ?_⟩
    · intro e; rw [hfst, if_neg hb]; simp
    · rw [hfst, if_neg hb]
    · -- produce a failing site
      obtain ⟨x, hxmem, hx⟩ : ∃ x ∈ vl, ¬(Option.isSome x = true) := by
        by_contra hc
        push_neg at hc
        exact hb (List.all_eq_true.mpr hc)
      have hxnone : x = none := by
        cases x with
        | none => rfl
        | some w => simp [Option.isSome] at hx
      subst hxnone
      obtain ⟨i, hi⟩ := List.mem_iff_getElem?.mp hxmem
      have hilt : i < vl.length := (List.getElem?_eq_some.mp hi).1
      obtain ⟨sp0, hisp⟩ : ∃ sp0, (h.mem sid).species[i]? = some sp0 := by
        rw [List.getElem?_eq_getElem
          (show i < (h.mem sid).species.length by omega)]
        exact ⟨_, rfl⟩
      obtain ⟨v, hv1, hv2⟩ := hpt0 i _ hisp
      rw [hi] at hv2
      cases hv2
      exact ⟨i, _, hisp, hv1⟩
    · rw [hfst, if_neg hb]
    · intro hcontra
      rw [hfst, if_neg hb] at hcontra
      simp at hcontra

/-- Witness for C10 on the concrete Mn/Li heap. -/
theorem solver_frame_input_unchanged_wit :
    (solve_charge_by_mag heapMnLi 0 none none).2.mem 0 = heapMnLi.mem 0 :=
  solver_frame_input_unchanged heapMnLi 0 none none (by decide)

/-- Witness for C7 on the concrete Mn/Li heap with moments 3.5 and 0. -/
theorem solver_all_or_nothing_wit :
    (solve_charge_by_mag heapMnLi 0 none none).1 = .ok none ∨
    (solve_charge_by_mag heapMnLi 0 none none).1 = .ok (some heapMnLi.next) :=
  (solver_all_or_nothing heapMnLi 0 none none [mkRat 7 2, 0]
    (by decide) rfl rfl).2.1

end VaspUtils
